import Mathlib

/-!
# Verification of the prestic core (profile manager / task scheduler)

Shallow embedding of `prestic/prestic.py`: the schedule engine
(`Profile.find_next_run`), the profile property model (`Profile.__setitem__`,
`__getitem__`), the command builder (`Profile.get_command`), the inheritance
resolution loop (`BaseHandler.load_config`), the load-time catch-up policy,
and the supervisor's task runner (`ServiceHandler.run_task`).

Timestamps are modelled as natural numbers: seconds since 0001-01-01 00:00:00
in the proleptic Gregorian calendar (the calendar used by Python `datetime`;
day 0 is a Monday, matching `datetime(1,1,1).weekday() == 0`).  Sub-second
precision is dropped: every datetime produced or compared by the embedded code
is built from whole seconds, and `replace(...)` never changes microseconds, so
second precision is faithful for all modelled behaviour.
-/

namespace Prestic

/-! ## Calendar arithmetic -/

/-- Day-of-month of a day count (days since 0001-01-01, proleptic Gregorian).
Civil-from-days algorithm, shifted to the 0000-03-01 era base. -/
def dayOfMonth (days : Nat) : Nat :=
  let z := days + 306
  let doe := z % 146097
  let yoe := (doe - doe / 1460 + doe / 36524 - doe / 146096) / 365
  let doy := doe - (365 * yoe + yoe / 4 - yoe / 100)
  let mp := (5 * doy + 2) / 153
  doy - (153 * mp + 2) / 5 + 1

/-- Day count (days since 0001-01-01) of a proleptic Gregorian civil date. -/
def rataDays (y m d : Nat) : Nat :=
  let yy := if m ≤ 2 then y - 1 else y
  let era := yy / 400
  let yoe := yy % 400
  let mp := if m > 2 then m - 3 else m + 9
  let doy := (153 * mp + 2) / 5 + d - 1
  let doe := yoe * 365 + yoe / 4 - yoe / 100 + doy
  era * 146097 + doe - 306

/-- A concrete timestamp (seconds since 0001-01-01 00:00:00). -/
def mkDT (y m d hh mi ss : Nat) : Nat :=
  rataDays y m d * 86400 + hh * 3600 + mi * 60 + ss

def dayNum (t : Nat) : Nat := t / 86400
def dayStart (t : Nat) : Nat := t / 86400 * 86400
def hourOf (t : Nat) : Nat := t % 86400 / 3600
def minuteOf (t : Nat) : Nat := t % 3600 / 60
/-- Python `datetime.weekday()`: Monday = 0.  Day 0 (0001-01-01) is a Monday. -/
def weekdayOf (t : Nat) : Nat := t / 86400 % 7

/-- The day-of-month produced by `dayOfMonth` is always between 1 and 31. -/
theorem dayOfMonth_bounds (days : Nat) :
    1 ≤ dayOfMonth days ∧ dayOfMonth days ≤ 31 := by
  dsimp only [dayOfMonth]
  omega

example : rataDays 1970 1 1 = 719162 := by decide
example : rataDays 2024 1 1 = 738885 := by decide
example : weekdayOf (mkDT 2024 1 1 0 0 0) = 0 := by decide
example : dayOfMonth (rataDays 2024 2 29) = 29 := by decide
example : dayOfMonth (rataDays 2024 3 1) = 1 := by decide

/-! ## Python string primitives

Tokens are handled as `List Char` so that the splitting functions can be
reasoned about structurally.  These model the exact Python calls used by
`Profile.find_next_run`: `str.lower()`, `str.replace(",", " ")`,
`str.split()` (split on whitespace runs), `str.split(":")`, `int(...)`,
and `datetime.replace(hour=..., minute=...)` (which validates its ranges). -/

def pyIsSpace (c : Char) : Bool :=
  c = ' ' || c = '\t' || c = '\n' || c = '\x0d' || c = '\x0b' || c = '\x0c'

/-- `str.split()` with no separator: split on runs of whitespace,
discarding empty fields. -/
def pySplitWs (s : List Char) : List (List Char) :=
  match s with
  | [] => []
  | c :: rest =>
    if pyIsSpace c then pySplitWs rest
    else
      match pySplitWs rest with
      | [] => [[c]]
      | w :: ws =>
        match rest with
        | [] => [[c]]
        | d :: _ => if pyIsSpace d then [c] :: w :: ws else (c :: w) :: ws

/-- `str.split(":")`: split on every colon, keeping empty fields. -/
def splitColon : List Char → List (List Char)
  | [] => [[]]
  | c :: rest =>
    if c = ':' then [] :: splitColon rest
    else
      match splitColon rest with
      | [] => [[c]]
      | p :: ps => (c :: p) :: ps

/-- Schedule tokenization: `schedule.lower().replace(",", " ").split()`. -/
def tokenize (s : String) : List (List Char) :=
  pySplitWs ((s.toList.map Char.toLower).map fun c => if c = ',' then ' ' else c)

/-- Decimal value of a non-empty all-digit character list; `none` otherwise. -/
def digitsVal (s : List Char) : Option Nat :=
  if s ≠ [] ∧ s.all Char.isDigit then
    some (s.foldl (fun a c => a * 10 + (c.toNat - 48)) 0)
  else none

/-- Python `int(token)`: optional sign followed by digits; anything else
raises `ValueError`. -/
def pyInt (s : List Char) : Except String Int :=
  match s with
  | [] => .error "invalid literal for int"
  | c :: rest =>
    if c = '+' then
      match digitsVal rest with
      | some v => .ok (v : Int)
      | none => .error "invalid literal for int"
    else if c = '-' then
      match digitsVal rest with
      | some v => .ok (-(v : Int))
      | none => .error "invalid literal for int"
    else
      match digitsVal (c :: rest) with
      | some v => .ok (v : Int)
      | none => .error "invalid literal for int"

/-- `datetime.replace(hour=h, minute=m)`: validates the ranges (raising
`ValueError` otherwise) and keeps the date and the seconds. -/
def pyReplaceHM (t : Nat) (h m : Int) : Except String Nat :=
  if h < 0 ∨ 23 < h then .error "hour must be in 0..23"
  else if m < 0 ∨ 59 < m then .error "minute must be in 0..59"
  else .ok (t / 86400 * 86400 + h.toNat * 3600 + m.toNat * 60 + t % 60)

/-! ## Schedule engine (`Profile.find_next_run`) -/

/-- Python set `add` (only membership is ever observed). -/
def insertNat (n : Nat) (l : List Nat) : List Nat :=
  if l.contains n then l else l ++ [n]

def idxOf (x : List Char) : List (List Char) → Nat
  | [] => 0
  | y :: ys => if x = y then 0 else idxOf x ys + 1

def wdNames : List (List Char) :=
  ["mon".toList, "tue".toList, "wed".toList, "thu".toList,
   "fri".toList, "sat".toList, "sun".toList]

/-- Parser state of `find_next_run`: day-of-month set, weekday set and the
candidate `next_run`.  `m_days` starts as `{1..31}` and `w_days` empty. -/
structure SchedState where
  mDays : List Nat
  wDays : List Nat
  nextRun : Nat
  deriving Repr, DecidableEq

/-- One token of the schedule string, in source branch order. -/
def applyToken (fromT1 : Nat) (st : SchedState) (part : List Char) :
    Except String SchedState :=
  if part = "monthly".toList then .ok { st with mDays := [1] }
  else if part = "weekly".toList then .ok { st with wDays := [0] }
  else if part = "daily".toList then .ok { st with wDays := [0, 1, 2, 3, 4, 5, 6] }
  else if part = "hourly".toList then
    match pyReplaceHM st.nextRun ((hourOf fromT1 : Int) + 1) 0 with
    | .ok nr => .ok { st with nextRun := nr }
    | .error e => .error e
  else if wdNames.contains (part.take 3) then
    .ok { st with wDays := insertNat (idxOf (part.take 3) wdNames) st.wDays }
  else
    match splitColon part with
    | [hs, ms] =>
      match (if hs = ['*'] then .ok ((hourOf fromT1 : Int) + 1) else pyInt hs) with
      | .error e => .error e
      | .ok hour =>
        match pyInt ms with
        | .error e => .error e
        | .ok minute =>
          match pyReplaceHM st.nextRun hour minute with
          | .error e => .error e
          | .ok nr => .ok { st with nextRun := nr }
    | _ => .ok st

/-- The day-scanning loop: `for i in range(from_time.weekday(), from_time.weekday() + 32)`.
`next_run` advances one day per iteration whether or not the day matched. -/
def scanDays (fromT1 : Nat) (mDays wDays : List Nat) :
    Nat → Nat → Nat → Option Nat
  | 0, _, _ => none
  | fuel + 1, i, nr =>
    if mDays.contains (dayOfMonth (dayNum nr)) &&
        (wDays.contains (i % 7) || wDays.isEmpty) then
      if fromT1 ≤ nr then some nr
      else scanDays fromT1 mDays wDays fuel (i + 1) (nr + 86400)
    else scanDays fromT1 mDays wDays fuel (i + 1) (nr + 86400)

/-- Process the schedule tokens in order, threading the parser state. -/
def foldTokens (fromT1 : Nat) : SchedState → List (List Char) → Except String SchedState
  | st, [] => .ok st
  | st, tk :: rest =>
    match applyToken fromT1 st tk with
    | .ok st' => foldTokens fromT1 st' rest
    | .error e => .error e

/-- `Profile.find_next_run(from_time)` for a schedule string (the caller's
`if self.schedule:` truthiness test is the emptiness test here).  A thrown
`ValueError` is an `.error` result. -/
def findNextRun (sched : String) (fromTime : Nat) : Except String (Option Nat) :=
  if sched = "" then .ok none
  else
    let fromT1 := fromTime + 60
    let st0 : SchedState := ⟨List.range' 1 31, [], dayStart fromT1⟩
    match foldTokens fromT1 st0 (tokenize sched) with
    | .error e => .error e
    | .ok st =>
      .ok (scanDays fromT1 st.mDays st.wDays 32 (weekdayOf fromT1) st.nextRun)

example : tokenize "Daily, 14:30" = ["daily".toList, "14:30".toList] := by decide

example : findNextRun "daily 14:30" (mkDT 2024 1 1 10 0 0) =
    .ok (some (mkDT 2024 1 1 14 30 0)) := rfl
example : findNextRun "daily 08:00" (mkDT 2024 1 1 10 0 0) =
    .ok (some (mkDT 2024 1 2 8 0 0)) := rfl
example : findNextRun "hourly" (mkDT 2024 1 1 10 0 0) =
    .ok (some (mkDT 2024 1 1 11 0 0)) := rfl
example : findNextRun "hourly" (mkDT 2024 1 1 23 0 0) =
    .error "hour must be in 0..23" := rfl
example : findNextRun "foo" (mkDT 2024 1 1 10 0 0) =
    .ok (some (mkDT 2024 1 2 0 0 0)) := rfl
example : findNextRun "" (mkDT 2024 1 1 10 0 0) = .ok none := rfl
example : findNextRun "daily 00:00" (mkDT 2024 1 1 23 59 30) =
    .ok (some (mkDT 2024 1 3 0 0 0)) := rfl
example : findNextRun "mon 09:00" (mkDT 2024 1 2 10 0 0) =
    .ok (some (mkDT 2024 1 8 9 0 0)) := rfl
example : findNextRun "weekly" (mkDT 2024 1 2 10 0 0) =
    .ok (some (mkDT 2024 1 8 0 0 0)) := rfl
example : findNextRun "monthly 06:00" (mkDT 2024 1 2 10 0 0) =
    .ok (some (mkDT 2024 2 1 6 0 0)) := rfl

/-! ## Schedule engine lemmas -/

theorem splitColon_ne_nil (t : List Char) : splitColon t ≠ [] := by
  cases t with
  | nil => simp [splitColon]
  | cons c rest =>
    simp only [splitColon]
    split
    · simp
    · rcases h : splitColon rest with _ | ⟨p, ps⟩ <;> simp

theorem splitColon_singleton {t ms : List Char} (h : splitColon t = [ms]) :
    t = ms := by
  induction t generalizing ms with
  | nil =>
    simp only [splitColon, List.cons.injEq, and_true] at h
    exact h
  | cons c rest ih =>
    simp only [splitColon] at h
    split at h
    · injection h with h1 h2
      exact absurd h2 (splitColon_ne_nil rest)
    · rcases hr : splitColon rest with _ | ⟨p, ps⟩
      · exact absurd hr (splitColon_ne_nil rest)
      · rw [hr] at h
        simp only at h
        injection h with h1 h2
        subst h2
        rw [ih hr, ← h1]

theorem splitColon_pair {t hs ms : List Char} (h : splitColon t = [hs, ms]) :
    t = hs ++ ':' :: ms := by
  induction t generalizing hs with
  | nil => simp [splitColon] at h
  | cons c rest ih =>
    simp only [splitColon] at h
    split at h
    · rename_i hc
      injection h with h1 h2
      subst hc
      rw [← h1, List.nil_append, splitColon_singleton h2]
    · rcases hr : splitColon rest with _ | ⟨p, ps⟩
      · exact absurd hr (splitColon_ne_nil rest)
      · rw [hr] at h
        simp only at h
        injection h with h1 h2
        rw [← h1]
        rw [hr] at ih
        have := @ih p (by rw [h2])
        rw [List.cons_append, ← this]

theorem digitsVal_some {s : List Char} {v : Nat} (h : digitsVal s = some v) :
    s ≠ [] ∧ s.all Char.isDigit = true := by
  unfold digitsVal at h
  split at h
  · assumption
  · simp at h

theorem pyInt_ok_head {hs : List Char} {v : Int} (h : pyInt hs = .ok v) :
    ∃ c r, hs = c :: r ∧ (c = '+' ∨ c = '-' ∨ c.isDigit = true) := by
  match hs with
  | [] => simp [pyInt] at h
  | c :: r =>
    refine ⟨c, r, rfl, ?_⟩
    by_cases h1 : c = '+'
    · exact Or.inl h1
    by_cases h2 : c = '-'
    · exact Or.inr (Or.inl h2)
    right; right
    simp only [pyInt, if_neg h1, if_neg h2] at h
    rcases hd : digitsVal (c :: r) with _ | v'
    · rw [hd] at h; simp at h
    · have := (digitsVal_some hd).2
      simp only [List.all_cons, Bool.and_eq_true] at this
      exact this.1

theorem applyToken_daily (f : Nat) (st : SchedState) :
    applyToken f st ("daily".toList) =
      .ok { st with wDays := [0, 1, 2, 3, 4, 5, 6] } := rfl

/-- A token whose colon-split has exactly two parts, the first of which is
`*` or parses as an integer, reaches the `HH:MM` branch of the token loop
(it is none of the keywords and no weekday prefix, because its first
character is `*`, a sign, or a digit). -/
theorem applyToken_colon2 (f : Nat) (st : SchedState) {t hs ms : List Char}
    (hsplit : splitColon t = [hs, ms])
    (hhd : hs = ['*'] ∨ ∃ v : Int, pyInt hs = .ok v) :
    applyToken f st t =
      match (if hs = ['*'] then (.ok ((hourOf f : Int) + 1) : Except String Int)
             else pyInt hs) with
      | .error e => .error e
      | .ok hour =>
        match pyInt ms with
        | .error e => .error e
        | .ok minute =>
          match pyReplaceHM st.nextRun hour minute with
          | .error e => .error e
          | .ok nr => .ok { st with nextRun := nr } := by
  obtain ⟨c, r, hcs, hc⟩ : ∃ c r, hs = c :: r ∧
      (c = '*' ∨ c = '+' ∨ c = '-' ∨ c.isDigit = true) := by
    rcases hhd with h | ⟨v, hv⟩
    · exact ⟨'*', [], h, Or.inl rfl⟩
    · obtain ⟨c, r, h1, h2⟩ := pyInt_ok_head hv
      refine ⟨c, r, h1, ?_⟩
      rcases h2 with h | h | h
      · exact Or.inr (Or.inl h)
      · exact Or.inr (Or.inr (Or.inl h))
      · exact Or.inr (Or.inr (Or.inr h))
  have ht : t = hs ++ ':' :: ms := splitColon_pair hsplit
  have hform : t = c :: (r ++ ':' :: ms) := by rw [ht, hcs]; rfl
  have hcolon : ':' ∈ t := by
    rw [ht]; exact List.mem_append_right _ (List.mem_cons_self _ _)
  have hkw : ∀ w : List Char, ':' ∉ w → t ≠ w := fun w hw he => hw (he ▸ hcolon)
  have h1 : t ≠ "monthly".toList := hkw _ (by decide)
  have h2 : t ≠ "weekly".toList := hkw _ (by decide)
  have h3 : t ≠ "daily".toList := hkw _ (by decide)
  have h4 : t ≠ "hourly".toList := hkw _ (by decide)
  have hletters : c ≠ 'm' ∧ c ≠ 't' ∧ c ≠ 'w' ∧ c ≠ 'f' ∧ c ≠ 's' := by
    refine ⟨?_, ?_, ?_, ?_, ?_⟩ <;>
      (intro he; subst he; rcases hc with h | h | h | h <;> exact absurd h (by decide))
  have htake : List.take 3 t = c :: List.take 2 (r ++ ':' :: ms) := by
    rw [hform]; rfl
  have hwd : wdNames.contains (List.take 3 t) = false := by
    rw [htake, List.contains_eq_any_beq]
    simp only [wdNames, List.any_cons, List.any_nil, Bool.or_eq_false_iff]
    refine ⟨?_, ?_, ?_, ?_, ?_, ?_, ⟨?_, trivial⟩⟩ <;>
      (rw [beq_eq_false_iff_ne]
       intro he
       injection he with hch _
       first
        | exact hletters.1 hch
        | exact hletters.2.1 hch
        | exact hletters.2.2.1 hch
        | exact hletters.2.2.2.1 hch
        | exact hletters.2.2.2.2 hch)
  unfold applyToken
  rw [if_neg h1, if_neg h2, if_neg h3, if_neg h4, hwd]
  simp only [Bool.false_eq_true, if_false, hsplit]

theorem scanDays_step (f : Nat) (m w : List Nat) (fuel i nr : Nat) :
    scanDays f m w (fuel + 1) i nr =
      if m.contains (dayOfMonth (dayNum nr)) && (w.contains (i % 7) || w.isEmpty) then
        if f ≤ nr then some nr else scanDays f m w fuel (i + 1) (nr + 86400)
      else scanDays f m w fuel (i + 1) (nr + 86400) := rfl

theorem mem_range31 {d : Nat} (h1 : 1 ≤ d) (h2 : d ≤ 31) :
    (List.range' 1 31).contains d = true := by
  simp only [List.contains, List.elem_eq_mem, decide_eq_true_eq]
  rw [List.mem_range']
  exact ⟨d - 1, by omega, by omega⟩

/-- The initial day-of-month set `{1..31}` accepts every calendar day. -/
theorem mDaysInit_ok (d : Nat) :
    (List.range' 1 31).contains (dayOfMonth d) = true :=
  mem_range31 (dayOfMonth_bounds d).1 (dayOfMonth_bounds d).2

/-- The `daily` weekday set accepts every weekday. -/
theorem fullWeek_ok (i : Nat) :
    (([0, 1, 2, 3, 4, 5, 6] : List Nat).contains (i % 7) ||
      ([0, 1, 2, 3, 4, 5, 6] : List Nat).isEmpty) = true := by
  have : i % 7 = 0 ∨ i % 7 = 1 ∨ i % 7 = 2 ∨ i % 7 = 3 ∨ i % 7 = 4 ∨
      i % 7 = 5 ∨ i % 7 = 6 := by omega
  rcases this with h | h | h | h | h | h | h <;> rw [h] <;> decide

/-- An empty weekday set accepts every weekday (the `or not w_days` disjunct). -/
theorem emptyWeek_ok (i : Nat) :
    (([] : List Nat).contains (i % 7) || ([] : List Nat).isEmpty) = true := by
  simp

/-- When every day passes both the day-of-month filter and the weekday
filter, the scan returns the candidate itself if it is not in the past,
and the next day's candidate otherwise. -/
theorem scanDays_all {mDays wDays : List Nat} {fromT1 : Nat}
    (hm : ∀ d : Nat, mDays.contains (dayOfMonth d) = true)
    (hw : ∀ i : Nat, (wDays.contains (i % 7) || wDays.isEmpty) = true)
    (i nr : Nat) (hnr : fromT1 ≤ nr + 86400) :
    scanDays fromT1 mDays wDays 32 i nr =
      some (if fromT1 ≤ nr then nr else nr + 86400) := by
  rw [show (32 : Nat) = 31 + 1 from rfl, scanDays_step, hm, hw]
  simp only [Bool.and_true, if_true]
  by_cases h : fromT1 ≤ nr
  · rw [if_pos h, if_pos h]
  · rw [if_neg h, if_neg h]
    rw [show (31 : Nat) = 30 + 1 from rfl, scanDays_step, hm, hw]
    simp only [Bool.and_true, if_true]
    rw [if_pos hnr]

theorem pyReplaceHM_ok (t : Nat) {h m : Nat} (hh : h < 24) (hm : m < 60) :
    pyReplaceHM t (h : Int) (m : Int) =
      .ok (t / 86400 * 86400 + h * 3600 + m * 60 + t % 60) := by
  unfold pyReplaceHM
  rw [if_neg (by omega), if_neg (by omega)]
  simp

/-- C2 (amended): for a schedule of the shape `daily HH:MM` (one `daily`
token and one fixed time token) and every reference time, `find_next_run`
returns a timestamp whose hour and minute are `HH:MM`, never earlier than
`fromTime + 1 minute`, and lying on the same or the next calendar day of
`fromTime + 1 minute` (the minute bump can already cross midnight, which is
what the counterexample exploits). -/
theorem c2_daily_schedule (sched : String) (fromTime : Nat)
    (t hs ms : List Char) (hh mm : Nat)
    (htok : tokenize sched = ["daily".toList, t])
    (hsplit : splitColon t = [hs, ms]) (hstar : hs ≠ ['*'])
    (hhs : pyInt hs = .ok (hh : Int)) (hms : pyInt ms = .ok (mm : Int))
    (hh24 : hh < 24) (hm60 : mm < 60) :
    ∃ r : Nat, findNextRun sched fromTime = .ok (some r) ∧
      hourOf r = hh ∧ minuteOf r = mm ∧
      fromTime + 60 ≤ r ∧
      (dayNum r = dayNum (fromTime + 60) ∨
       dayNum r = dayNum (fromTime + 60) + 1) := by
  have hne : sched ≠ "" := by
    intro he
    rw [he] at htok
    rw [show tokenize "" = [] from rfl] at htok
    simp at htok
  have hfold : foldTokens (fromTime + 60)
      ⟨List.range' 1 31, [], dayStart (fromTime + 60)⟩ ["daily".toList, t] =
      .ok ⟨List.range' 1 31, [0, 1, 2, 3, 4, 5, 6],
        dayStart (fromTime + 60) / 86400 * 86400 + hh * 3600 + mm * 60 +
          dayStart (fromTime + 60) % 60⟩ := by
    simp only [foldTokens, applyToken_daily]
    rw [applyToken_colon2 _ _ hsplit (Or.inr ⟨(hh : Int), hhs⟩),
        if_neg hstar, hhs, hms]
    simp only [pyReplaceHM_ok _ hh24 hm60]
  have hbound : fromTime + 60 ≤
      (dayStart (fromTime + 60) / 86400 * 86400 + hh * 3600 + mm * 60 +
        dayStart (fromTime + 60) % 60) + 86400 := by
    dsimp only [dayStart]
    omega
  have hscan := scanDays_all mDaysInit_ok fullWeek_ok
    (weekdayOf (fromTime + 60))
    (dayStart (fromTime + 60) / 86400 * 86400 + hh * 3600 + mm * 60 +
      dayStart (fromTime + 60) % 60) hbound
  refine ⟨if fromTime + 60 ≤ dayStart (fromTime + 60) / 86400 * 86400 +
      hh * 3600 + mm * 60 + dayStart (fromTime + 60) % 60 then
        dayStart (fromTime + 60) / 86400 * 86400 + hh * 3600 + mm * 60 +
          dayStart (fromTime + 60) % 60
      else dayStart (fromTime + 60) / 86400 * 86400 + hh * 3600 + mm * 60 +
          dayStart (fromTime + 60) % 60 + 86400, ?_, ?_⟩
  · unfold findNextRun
    rw [if_neg hne, htok]
    dsimp only
    rw [hfold]
    dsimp only
    rw [hscan]
  · by_cases hc : fromTime + 60 ≤
        dayStart (fromTime + 60) / 86400 * 86400 + hh * 3600 + mm * 60 +
          dayStart (fromTime + 60) % 60
    · rw [if_pos hc]
      dsimp only [hourOf, minuteOf, dayNum, dayStart] at *
      refine ⟨by omega, by omega, hc, by omega⟩
    · rw [if_neg hc]
      dsimp only [hourOf, minuteOf, dayNum, dayStart] at *
      refine ⟨by omega, by omega, by omega, by omega⟩

/-- C2 counterexample to the claim as stated: with schedule `daily 00:00`
and reference time 2024-01-01 23:59:30, `find_next_run` returns
2024-01-03 00:00 — two calendar days after `fromTime`, because
`fromTime + 1 minute` already crosses midnight and `00:00:00 < 00:00:30`. -/
theorem c2_counterexample :
    findNextRun "daily 00:00" (mkDT 2024 1 1 23 59 30) =
      .ok (some (mkDT 2024 1 3 0 0 0)) ∧
    dayNum (mkDT 2024 1 3 0 0 0) = dayNum (mkDT 2024 1 1 23 59 30) + 2 :=
  ⟨rfl, by decide⟩

/-- C2 witness: the amended theorem applied to the scenario
`daily 14:30` at 2024-01-01 10:00. -/
theorem c2_witness :
    ∃ r : Nat, findNextRun "daily 14:30" (mkDT 2024 1 1 10 0 0) =
      .ok (some r) ∧
      hourOf r = 14 ∧ minuteOf r = 30 ∧
      mkDT 2024 1 1 10 0 0 + 60 ≤ r ∧
      (dayNum r = dayNum (mkDT 2024 1 1 10 0 0 + 60) ∨
       dayNum r = dayNum (mkDT 2024 1 1 10 0 0 + 60) + 1) :=
  c2_daily_schedule "daily 14:30" (mkDT 2024 1 1 10 0 0)
    "14:30".toList "14".toList "30".toList 14 30
    rfl rfl (by decide) rfl rfl (by decide) (by decide)

/-- A token that is no schedule keyword, no weekday prefix, and whose
colon-split does not have exactly two parts leaves the parser state
untouched. -/
theorem applyToken_skip (f : Nat) (st : SchedState) {tk : List Char}
    (h1 : tk ≠ "monthly".toList) (h2 : tk ≠ "weekly".toList)
    (h3 : tk ≠ "daily".toList) (h4 : tk ≠ "hourly".toList)
    (h5 : wdNames.contains (List.take 3 tk) = false)
    (h6 : (splitColon tk).length ≠ 2) :
    applyToken f st tk = .ok st := by
  unfold applyToken
  rw [if_neg h1, if_neg h2, if_neg h3, if_neg h4, h5]
  simp only [Bool.false_eq_true, if_false]
  rcases hsp : splitColon tk with _ | ⟨a, _ | ⟨b, _ | ⟨c, l⟩⟩⟩
  · rfl
  · rfl
  · rw [hsp] at h6; simp at h6
  · rfl

theorem foldTokens_skip (f : Nat) (st : SchedState) {toks : List (List Char)}
    (h : ∀ tk ∈ toks, tk ≠ "monthly".toList ∧ tk ≠ "weekly".toList ∧
      tk ≠ "daily".toList ∧ tk ≠ "hourly".toList ∧
      wdNames.contains (List.take 3 tk) = false ∧
      (splitColon tk).length ≠ 2) :
    foldTokens f st toks = .ok st := by
  induction toks with
  | nil => rfl
  | cons tk rest ih =>
    obtain ⟨h1, h2, h3, h4, h5, h6⟩ := h tk (List.mem_cons_self _ _)
    simp only [foldTokens, applyToken_skip f st h1 h2 h3 h4 h5 h6]
    exact ih (fun tk' htk' => h tk' (List.mem_cons_of_mem _ htk'))

/-- C6 (amended): `find_next_run` returns `None` for an *empty* schedule
string, but a non-empty schedule string none of whose tokens is a frequency
keyword, a weekday token, or a time token does *not* yield `None`: the
defaulted day-of-month set `{1..31}` and empty weekday set accept every
day, so the profile is scheduled for the next midnight at or after
`fromTime + 1 minute`. -/
theorem c6_unrecognized (sched : String) (fromTime : Nat)
    (hne : sched ≠ "")
    (htoks : ∀ tk ∈ tokenize sched, tk ≠ "monthly".toList ∧
      tk ≠ "weekly".toList ∧ tk ≠ "daily".toList ∧ tk ≠ "hourly".toList ∧
      wdNames.contains (List.take 3 tk) = false ∧
      (splitColon tk).length ≠ 2) :
    (∀ fromTime' : Nat, findNextRun "" fromTime' = .ok none) ∧
    ∃ r : Nat, findNextRun sched fromTime = .ok (some r) ∧
      r % 86400 = 0 ∧ fromTime + 60 ≤ r ∧
      (dayNum r = dayNum (fromTime + 60) ∨
       dayNum r = dayNum (fromTime + 60) + 1) := by
  refine ⟨fun _ => rfl, ?_⟩
  have hbound : fromTime + 60 ≤ dayStart (fromTime + 60) + 86400 := by
    dsimp only [dayStart]; omega
  have hscan := scanDays_all mDaysInit_ok emptyWeek_ok
    (weekdayOf (fromTime + 60)) (dayStart (fromTime + 60)) hbound
  refine ⟨if fromTime + 60 ≤ dayStart (fromTime + 60) then dayStart (fromTime + 60)
      else dayStart (fromTime + 60) + 86400, ?_, ?_⟩
  · unfold findNextRun
    rw [if_neg hne]
    dsimp only
    rw [foldTokens_skip _ _ htoks]
    dsimp only
    rw [hscan]
  · by_cases hc : fromTime + 60 ≤ dayStart (fromTime + 60)
    · rw [if_pos hc]
      dsimp only [dayNum, dayStart] at *
      refine ⟨by omega, hc, by omega⟩
    · rw [if_neg hc]
      dsimp only [dayNum, dayStart] at *
      refine ⟨by omega, by omega, by omega⟩

/-- C6 counterexample to the claim as stated: the unrecognized non-empty
schedule `"foo"` does not return `None`; it schedules the next midnight. -/
theorem c6_counterexample :
    findNextRun "foo" (mkDT 2024 1 1 10 0 0) ≠ .ok none ∧
    findNextRun "foo" (mkDT 2024 1 1 10 0 0) =
      .ok (some (mkDT 2024 1 2 0 0 0)) := by
  refine ⟨?_, rfl⟩
  intro h
  rw [show findNextRun "foo" (mkDT 2024 1 1 10 0 0) =
    .ok (some (mkDT 2024 1 2 0 0 0)) from rfl] at h
  simp at h

/-- C6 witness: the amended theorem applied to schedule `"foo"` at
2024-01-01 10:00. -/
theorem c6_witness :
    (∀ fromTime' : Nat, findNextRun "" fromTime' = .ok none) ∧
    ∃ r : Nat, findNextRun "foo" (mkDT 2024 1 1 10 0 0) = .ok (some r) ∧
      r % 86400 = 0 ∧ mkDT 2024 1 1 10 0 0 + 60 ≤ r ∧
      (dayNum r = dayNum (mkDT 2024 1 1 10 0 0 + 60) ∨
       dayNum r = dayNum (mkDT 2024 1 1 10 0 0 + 60) + 1) :=
  c6_unrecognized "foo" (mkDT 2024 1 1 10 0 0) (by decide)
    (by decide)

/-- C7: `find_next_run` is not total.  For any reference time for which
`fromTime + 1 minute` lies in hour 23, the `hourly` keyword (and likewise a
wildcard `*:MM` time token) computes `replace(hour=23+1)`, which raises
`ValueError: hour must be in 0..23`; away from hour 23 the next-hour
timestamp is returned as intended. -/
theorem c7_hour23_valueerror :
    findNextRun "hourly" (mkDT 2024 1 1 23 0 0) =
      .error "hour must be in 0..23" ∧
    findNextRun "*:15" (mkDT 2024 1 1 23 0 0) =
      .error "hour must be in 0..23" ∧
    findNextRun "hourly" (mkDT 2024 1 1 10 0 0) =
      .ok (some (mkDT 2024 1 1 11 0 0)) ∧
    findNextRun "*:15" (mkDT 2024 1 1 10 0 0) =
      .ok (some (mkDT 2024 1 1 11 15 0)) :=
  ⟨rfl, rfl, rfl, rfl⟩

/-! ## Profile property model

`Profile._properties` is an insertion-ordered dict from (remapped) keys to
Python values.  Property values are strings, string lists, booleans or
integers (byte sizes are stored as integers; the float produced by
`parse_size(...) / 1024` for fractional sizes is outside the model, and
`shlex.split` is modelled for quote-free input as whitespace splitting,
which is exact for every value the repository's configuration grammar
produces). -/

inductive PyVal where
  | vstr (s : String)
  | vint (n : Int)
  | vbool (b : Bool)
  | vlist (l : List String)
  | vnone
  deriving Repr, DecidableEq

/-- `Profile._options`: (key, datatype, remap, default). -/
def optionsTable : List (String × String × Option String × PyVal) :=
  [("inherit", "list", none, .vlist []),
   ("description", "str", none, .vstr "no description"),
   ("repository", "str", some "flag.repo", .vnone),
   ("repository-file", "str", some "flag.repository-file", .vnone),
   ("password", "str", some "env.RESTIC_PASSWORD", .vnone),
   ("password-command", "str", some "env.RESTIC_PASSWORD_COMMAND", .vnone),
   ("password-file", "str", some "env.RESTIC_PASSWORD_FILE", .vnone),
   ("password-keyring", "str", none, .vnone),
   ("executable", "list", none, .vlist ["restic"]),
   ("command", "list", none, .vlist []),
   ("args", "list", none, .vlist []),
   ("schedule", "str", none, .vnone),
   ("notifications", "bool", none, .vbool true),
   ("wait-for-lock", "str", none, .vnone),
   ("cpu-priority", "str", none, .vnone),
   ("io-priority", "str", none, .vnone),
   ("limit-upload", "size", none, .vnone),
   ("limit-download", "size", none, .vnone),
   ("verbose", "int", some "flag.verbose", .vnone),
   ("no-cache", "bool", some "flag.no-cache", .vnone),
   ("no-lock", "bool", some "flag.no-lock", .vnone),
   ("option", "list", some "flag.option", .vnone),
   ("cache-dir", "str", some "env.RESTIC_CACHE_DIR", .vnone),
   ("key-hint", "str", some "env.RESTIC_KEY_HINT", .vnone)]

/-- The destination key of a table entry: `remap or key`. -/
def mappedKey (e : String × String × Option String × PyVal) : String :=
  e.2.2.1.getD e.1

/-- `Profile._keymap.get(key, key)`. -/
def keymap (key : String) : String :=
  match optionsTable.find? (fun e => e.1 == key) with
  | some e => mappedKey e
  | none => key

/-- `Profile._types.get(key)` (keyed by the remapped name). -/
def typeOf (key : String) : Option String :=
  (optionsTable.find? (fun e => mappedKey e == key)).map (fun e => e.2.1)

/-- `Profile._defaults.get(key)` (keyed by the remapped name); a missing
key defaults to Python `None`. -/
def defaultOf (key : String) : PyVal :=
  match optionsTable.find? (fun e => mappedKey e == key) with
  | some e => e.2.2.2
  | none => .vnone

/-- The `_parents` lineage entries `[parent.name, parent._parents]`. -/
inductive Lineage where
  | node (name : String) (ancestors : List Lineage)

/-- A profile: ordered property dict (seeded with `name`), lineage, and
the mutable `last_run` / `next_run` timestamps. -/
structure Profile where
  properties : List (String × PyVal)
  parents : List Lineage
  last_run : Option Nat
  next_run : Option Nat

/-- Ordered-dict lookup. -/
def assocGet (l : List (String × PyVal)) (k : String) : Option PyVal :=
  match l.find? (fun e => e.1 == k) with
  | some e => some e.2
  | none => none

/-- Ordered-dict update: overwrite in place, or append a new key. -/
def assocSet : List (String × PyVal) → String → PyVal → List (String × PyVal)
  | [], k, v => [(k, v)]
  | (k', v') :: rest, k, v =>
    if k' = k then (k', v) :: rest else (k', v') :: assocSet rest k v

/-- `Profile.__getitem__`: remap the key, read the property, fall back to
the defaults table. -/
def getProp (p : Profile) (key : String) : PyVal :=
  match assocGet p.properties (keymap key) with
  | some v => v
  | none => defaultOf (keymap key)

/-- `Profile.is_defined`. -/
def isDef (p : Profile) (key : String) : Bool :=
  (assocGet p.properties (keymap key)).isSome

/-- Python `==` restricted to the value types in play (`True == 1` and
`False == 0` hold across bool/int). -/
def pyEq : PyVal → PyVal → Bool
  | .vbool a, .vbool b => a == b
  | .vbool a, .vint n => (if a then (1 : Int) else 0) == n
  | .vint n, .vbool b => n == (if b then (1 : Int) else 0)
  | .vint a, .vint b => a == b
  | .vstr a, .vstr b => a == b
  | .vlist a, .vlist b => a == b
  | _, _ => false

/-- The bool conversion `value in [True, "true", "on", "yes", "1"]`. -/
def pyBoolCast (v : PyVal) : Bool :=
  [PyVal.vbool true, .vstr "true", .vstr "on", .vstr "yes", .vstr "1"].any (pyEq v)

/-- Python truthiness of a stored value. -/
def pyTruthy : PyVal → Bool
  | .vstr s => s ≠ ""
  | .vint n => n != 0
  | .vbool b => b
  | .vlist l => l ≠ []
  | .vnone => false

/-- Python `str(value)` for the value shapes in play (`str` of a list
drops the element quoting, which no modelled key ever exercises). -/
def pyStr : PyVal → String
  | .vstr s => s
  | .vint n => toString n
  | .vbool b => if b then "True" else "False"
  | .vlist l => "[" ++ String.intercalate ", " l ++ "]"
  | .vnone => "None"

/-- `shlex.split` for quote-free input: whitespace splitting. -/
def shlexSplit (s : String) : List String :=
  (pySplitWs s.toList).map (fun cs => String.mk cs)

/-- `parse_size`: digits with an optional `B`/`K`/`M`/`G`/`T`/`P` unit
(uppercased first); fractional sizes are outside the model. -/
def parseSize (s : String) : Nat :=
  let cs := s.toList.map Char.toUpper
  let ds := cs.takeWhile Char.isDigit
  let u := cs.dropWhile Char.isDigit
  let units : List Char := ['B', 'K', 'M', 'G', 'T', 'P']
  match digitsVal ds with
  | none => 0
  | some v =>
    if u = [] then v
    else
      match u with
      | [c] => if units.contains c then v * 1024 ^ (idxOf [c] (units.map ([·]))) else 0
      | [c, 'B'] => if units.contains c then v * 1024 ^ (idxOf [c] (units.map ([·]))) else 0
      | _ => 0

/-- The `size` datatype conversion:
`int(value) if str(value).isnumeric() else parse_size(value) / 1024`. -/
def sizeConv (v : PyVal) : PyVal :=
  match v with
  | .vint n => .vint n
  | .vstr s =>
    if s.toList ≠ [] ∧ s.toList.all Char.isDigit then
      .vint ((digitsVal s.toList).getD 0 : Nat)
    else .vint ((parseSize s / 1024 : Nat) : Int)
  | x => x

/-- `Profile`-level `find_next_run`: `None` unless a truthy schedule
string is set. -/
def Profile.findNext (p : Profile) (fromTime : Nat) :
    Except String (Option Nat) :=
  match getProp p "schedule" with
  | .vstr s => findNextRun s fromTime
  | _ => .ok none

/-- `Profile.__setitem__`: remap the key, convert the value according to
the datatype, store it; setting `schedule` recomputes `next_run` from
"now" (raising whatever `find_next_run` raises). -/
def setItem (now : Nat) (p : Profile) (key : String) (v : PyVal) :
    Except String Profile :=
  let k := keymap key
  let dt := typeOf k
  let val : PyVal :=
    if dt = some "list" then
      .vlist (match v with
        | .vstr s => shlexSplit s
        | .vlist l => l
        | _ => [])
    else if dt = some "bool" then .vbool (pyBoolCast v)
    else if dt = some "size" then sizeConv v
    else .vstr (pyStr v)
  let p' : Profile := { p with properties := assocSet p.properties k val }
  if k = "schedule" then
    match p'.findNext now with
    | .ok nr => .ok { p' with next_run := nr }
    | .error e => .error e
  else .ok p'

/-- Apply `__setitem__` for each configured pair in order. -/
def setItems (now : Nat) : Profile → List (String × PyVal) → Except String Profile
  | p, [] => .ok p
  | p, (k, v) :: rest =>
    match setItem now p k v with
    | .ok p' => setItems now p' rest
    | .error e => .error e

/-- `Profile.__init__(name, properties)`: seed `_properties` with `name`,
then set every configured key. -/
def mkProfile (now : Nat) (name : String) (props : List (String × PyVal)) :
    Except String Profile :=
  setItems now ⟨[("name", .vstr name)], [], none, none⟩ props

/-! ## Command builder (`Profile.get_command`) -/

/-- Python `str.isalnum()` (ASCII scope). -/
def pyIsAlnum (s : String) : Bool :=
  s ≠ "" && s.toList.all Char.isAlphanum

/-- Rendering of one flag value: bare `--name` for `True`, `--name=value`
for alphanumeric strings, `--name value` otherwise; any other value type
(including `False`) contributes nothing. -/
def renderFlag (name : String) (v : PyVal) : List String :=
  match v with
  | .vbool b => if b then ["--" ++ name] else []
  | .vstr s =>
    if pyIsAlnum s then ["--" ++ name ++ "=" ++ s] else ["--" ++ name, s]
  | _ => []

/-- The values iterated for a `flag.*` property: a stored list is iterated
element-wise, anything else as a singleton. -/
def flagValues (v : PyVal) : List PyVal :=
  match v with
  | .vlist l => l.map .vstr
  | x => [x]

/-- `a.isPrefixOf b` on characters (Python `str.startswith`), written
structurally so concrete command lines evaluate by reduction. -/
def hasPre : List Char → List Char → Bool
  | [], _ => true
  | _ :: _, [] => false
  | a :: as, b :: bs => a == b && hasPre as bs

/-- `key[n:]` for string keys. -/
def strDrop (k : String) (n : Nat) : String := String.mk (k.toList.drop n)

/-- The property loop of `get_command`: `env.*` keys populate the
environment dict, `flag.*` keys append rendered flags, in property order. -/
def propFlags (p : Profile) :
    List (String × PyVal) → List (String × PyVal) → List String →
    List (String × PyVal) × List String
  | [], env, args => (env, args)
  | (k, _) :: rest, env, args =>
    if hasPre "env.".toList k.toList then
      propFlags p rest (assocSet env (strDrop k 4) (getProp p k)) args
    else if hasPre "flag.".toList k.toList then
      propFlags p rest env
        (args ++ ((flagValues (getProp p k)).map (renderFlag (strDrop k 5))).flatten)
    else propFlags p rest env args

def asList : PyVal → List String
  | .vlist l => l
  | _ => []


/-- `sys.executable` is modelled as a fixed interpreter path and
`shlex.quote` as the identity (no modelled value needs quoting). -/
def keyringCommandFor (username : String) : String :=
  "python3 -m keyring get prestic " ++ username

/-- `x or "off"` for the bandwidth limit f-string. -/
def limitStr (v : PyVal) : String :=
  if pyTruthy v then pyStr v else "off"

/-- Everything `get_command` builds before the trailing
command/arguments block: executable, property flags and environment,
keyring password command, bandwidth limits. -/
def base_command (p : Profile) : List (String × PyVal) × List String :=
  let args := asList (getProp p "executable")
  let (env, args) := propFlags p p.properties [] args
  let env :=
    if pyTruthy (getProp p "password-keyring") then
      assocSet env "RESTIC_PASSWORD_COMMAND"
        (.vstr (keyringCommandFor (pyStr (getProp p "password-keyring"))))
    else env
  let args :=
    if pyTruthy (getProp p "limit-upload") then
      args ++ ["--limit-upload=" ++ pyStr (getProp p "limit-upload")]
    else args
  let args :=
    if pyTruthy (getProp p "limit-download") then
      args ++ ["--limit-download=" ++ pyStr (getProp p "limit-download")]
    else args
  let env :=
    if pyTruthy (getProp p "limit-upload") || pyTruthy (getProp p "limit-download") then
      assocSet env "RCLONE_BWLIMIT"
        (.vstr (limitStr (getProp p "limit-upload") ++ ":" ++
          limitStr (getProp p "limit-download")))
    else env
  (env, args)

/-- `Profile.get_command(cmd_args)`: the base command plus either the
override arguments (which fully replace the default command), or the
configured default `command` and `args`. -/
def get_command (p : Profile) (cmd_args : List String) :
    List (String × PyVal) × List String :=
  let (env, args) := base_command p
  (env,
    if cmd_args ≠ [] then args ++ cmd_args
    else if asList (getProp p "command") ≠ [] then
      args ++ asList (getProp p "command") ++ asList (getProp p "args")
    else args)

/-- `Profile.run(cmd_args, ...)` up to the spawn: builds the command, then
stamps `last_run` to "now" and clears `next_run` (scheduling is disabled
while a run is outstanding), and hands the argv/env to `Popen`.  The
platform- and I/O-specific `Popen` keyword plumbing has no observable
effect on the profile and is not modelled. -/
def Profile.run (p : Profile) (now : Nat) (cmd_args : List String) :
    Profile × List (String × PyVal) × List String :=
  let ea := get_command p cmd_args
  ({ p with last_run := some now, next_run := none }, ea)

/-! ## Ordered-dict lemmas -/

theorem assocGet_cons_ne {k' : String} (v' : PyVal) (l : List (String × PyVal))
    {k : String} (h : k' ≠ k) :
    assocGet ((k', v') :: l) k = assocGet l k := by
  have hb : (k' == k) = false := beq_eq_false_iff_ne.mpr h
  simp [assocGet, List.find?, hb]

theorem assocGet_set (l : List (String × PyVal)) (k : String) (v : PyVal) :
    assocGet (assocSet l k v) k = some v := by
  induction l with
  | nil => simp [assocSet, assocGet, List.find?]
  | cons e rest ih =>
    rcases e with ⟨k', v'⟩
    by_cases h : k' = k
    · subst h
      simp [assocSet, assocGet, List.find?]
    · rw [show assocSet ((k', v') :: rest) k v =
          (k', v') :: assocSet rest k v from by simp [assocSet, h]]
      rw [assocGet_cons_ne _ _ h]
      exact ih

/-! ## C5: command building for the round-trip profile -/

/-- The round-trip configuration of C5. -/
def c5props : List (String × PyVal) :=
  [("repository", .vstr "/tmp/repo"), ("password", .vstr "secret"),
   ("command", .vstr "backup /home")]

/-- The profile that `Profile("test", c5props)` constructs. -/
def c5resolved : Profile :=
  ⟨[("name", .vstr "test"), ("flag.repo", .vstr "/tmp/repo"),
    ("env.RESTIC_PASSWORD", .vstr "secret"),
    ("command", .vlist ["backup", "/home"])], [], none, none⟩

example : mkProfile 0 "test" c5props = .ok c5resolved := rfl
example : get_command c5resolved [] =
    ([("RESTIC_PASSWORD", .vstr "secret")],
     ["restic", "--repo", "/tmp/repo", "backup", "/home"]) := rfl

/-- C5 counterexample to the claim as stated: the repository is rendered
as a long `--repo` flag (the remap destination is `flag.repo`), so the
argv contains `--repo /tmp/repo` and no `-r` element at all. -/
theorem c5_counterexample :
    mkProfile 0 "test" c5props = .ok c5resolved ∧
    (get_command c5resolved []).2 =
      ["restic", "--repo", "/tmp/repo", "backup", "/home"] ∧
    "-r" ∉ (get_command c5resolved []).2 :=
  ⟨rfl, rfl, by decide⟩

/-- C5 (amended): the round-trip profile yields an argv ending in
`backup /home` with a `--repo /tmp/repo` flag pair and the environment
entry `RESTIC_PASSWORD=secret`; and for every profile, non-empty override
arguments fully replace the default `command`/`args` (the argv is the base
command followed by exactly the overrides). -/
theorem c5_build_command :
    ((get_command c5resolved []).1 =
        [("RESTIC_PASSWORD", PyVal.vstr "secret")] ∧
     (get_command c5resolved []).2 =
        ["restic", "--repo", "/tmp/repo"] ++ ["backup", "/home"]) ∧
    ∀ (q : Profile) (over : List String), over ≠ [] →
      get_command q over = ((base_command q).1, (base_command q).2 ++ over) := by
  refine ⟨⟨rfl, rfl⟩, ?_⟩
  intro q over h
  unfold get_command
  rcases hbc : base_command q with ⟨env, args⟩
  simp [h]

/-- C5 witness: overriding the round-trip profile with `snapshots`
replaces the configured `backup /home` entirely. -/
theorem c5_witness :
    get_command c5resolved ["snapshots"] =
      ((base_command c5resolved).1, (base_command c5resolved).2 ++ ["snapshots"]) :=
  c5_build_command.2 c5resolved ["snapshots"] (by decide)

/-! ## C9: the command builder does not mutate the profile -/

/-- C9: `get_command` reads the profile without changing it (in this
embedding it is a pure function of the profile), and the `lastRun` stamp /
`nextRun` clear happen in `Profile.run` only, after the command has been
built: the run result carries the untouched property dict and lineage, the
fresh `last_run = now`, a cleared `next_run`, and exactly the command that
`get_command` builds from the profile as it was before the call. -/
theorem c9_run_frame (p : Profile) (now : Nat) (cmdArgs : List String) :
    (Profile.run p now cmdArgs).1.properties = p.properties ∧
    (Profile.run p now cmdArgs).1.parents = p.parents ∧
    (Profile.run p now cmdArgs).1.last_run = some now ∧
    (Profile.run p now cmdArgs).1.next_run = none ∧
    (Profile.run p now cmdArgs).2 = get_command p cmdArgs :=
  ⟨rfl, rfl, rfl, rfl, rfl⟩

/-! ## C10: boolean property conversion -/

theorem pyBoolCast_iff (v : PyVal) :
    pyBoolCast v = true ↔
      v = .vbool true ∨ v = .vint 1 ∨ v = .vstr "true" ∨ v = .vstr "on" ∨
      v = .vstr "yes" ∨ v = .vstr "1" := by
  cases v <;>
    simp [pyBoolCast, pyEq, List.any_cons, List.any_nil, beq_iff_eq]

/-- C10: setting any boolean-typed property stores exactly the value of
`value in [True, "true", "on", "yes", "1"]` (so `True`, the number `1`,
and the four exact lowercase strings store `True`; everything else,
including `"True"`/`"TRUE"`/`"ON"`, stores `False`), and touches nothing
else on the profile. -/
theorem c10_bool_setitem (now : Nat) (p : Profile) (key : String) (v : PyVal)
    (hbool : typeOf (keymap key) = some "bool") :
    ∃ p' : Profile, setItem now p key v = .ok p' ∧
      assocGet p'.properties (keymap key) = some (.vbool (pyBoolCast v)) ∧
      p'.last_run = p.last_run ∧ p'.next_run = p.next_run ∧
      (pyBoolCast v = true ↔
        v = .vbool true ∨ v = .vint 1 ∨ v = .vstr "true" ∨ v = .vstr "on" ∨
        v = .vstr "yes" ∨ v = .vstr "1") := by
  have hsched : keymap key ≠ "schedule" := by
    intro he
    rw [he] at hbool
    exact absurd hbool (by decide)
  refine ⟨Profile.mk (assocSet p.properties (keymap key)
      (.vbool (pyBoolCast v))) p.parents p.last_run p.next_run,
    ?_, assocGet_set _ _ _, rfl, rfl, pyBoolCast_iff v⟩
  unfold setItem
  dsimp only
  rw [hbool]
  simp [hsched]

/-- A minimal profile for concrete instantiations. -/
def pEmpty : Profile := ⟨[("name", .vstr "p")], [], none, none⟩

/-- C10 witness: setting `notifications` to the capitalized string
`"True"` stores `False`. -/
theorem c10_witness :
    ∃ p' : Profile, setItem 0 pEmpty "notifications" (.vstr "True") = .ok p' ∧
      assocGet p'.properties (keymap "notifications") =
        some (.vbool (pyBoolCast (.vstr "True"))) ∧
      p'.last_run = pEmpty.last_run ∧ p'.next_run = pEmpty.next_run ∧
      (pyBoolCast (.vstr "True") = true ↔
        PyVal.vstr "True" = .vbool true ∨ PyVal.vstr "True" = .vint 1 ∨
        PyVal.vstr "True" = .vstr "true" ∨ PyVal.vstr "True" = .vstr "on" ∨
        PyVal.vstr "True" = .vstr "yes" ∨ PyVal.vstr "True" = .vstr "1") :=
  c10_bool_setitem 0 pEmpty "notifications" (.vstr "True") rfl

example : pyBoolCast (.vstr "True") = false := rfl
example : pyBoolCast (.vint 1) = true := rfl
example : pyBoolCast (.vbool true) = true := rfl
example : pyBoolCast (.vstr "on") = true := rfl
example : pyBoolCast (.vstr "ON") = false := rfl

/-! ## Inheritance resolution (`BaseHandler.load_config`)

The `while inherits:` loop makes repeated passes over the profile dict.
A pass is modelled as a fold over the (fixed) key list carrying the
profile map, and the unbounded `while` as fuel-indexed iteration: the
source has no iteration cap, so exhausting any amount of fuel on an input
exhibits non-termination of the loop on that input. -/

def inheritList (p : Profile) : List String := asList (getProp p "inherit")

def profName (p : Profile) : String := pyStr (getProp p "name")

/-- The property-copy half of `Profile.inherit(parent)`: every key the
parent defines and the child does not is copied through `__setitem__`
(which can raise when copying a `schedule`). -/
def inheritProps (now : Nat) : Profile → List (String × PyVal) →
    Except String Profile
  | c, [] => .ok c
  | c, (k, v) :: rest =>
    if isDef c k then inheritProps now c rest
    else
      match setItem now c k v with
      | .ok c' => inheritProps now c' rest
      | .error e => .error e

/-- `Profile.inherit(parent)`: copy undefined properties, then append the
parent lineage `[parent.name, parent._parents]`. -/
def inheritFrom (now : Nat) (child parent : Profile) : Except String Profile :=
  match inheritProps now child parent.properties with
  | .ok c =>
    .ok { c with parents :=
      c.parents ++ [Lineage.node (profName parent) parent.parents] }
  | .error e => .error e

/-- `profile["inherit"].pop(0)`. -/
def popInherit (p : Profile) : Profile :=
  { p with properties :=
      assocSet p.properties "inherit" (.vlist (inheritList p).tail) }

def lookupProf (ps : List (String × Profile)) (n : String) : Option Profile :=
  match ps.find? (fun e => e.1 == n) with
  | some e => some e.2
  | none => none

def updateProf : List (String × Profile) → String → Profile →
    List (String × Profile)
  | [], _, _ => []
  | (n', p') :: rest, n, p =>
    if n' = n then (n', p) :: rest else (n', p') :: updateProf rest n p

/-- One pass of the `for name, profile in self.profiles.items():` body:
skip resolved profiles, `exit` on unknown parents and self-inheritance,
postpone children whose parent is itself unresolved (setting the
`inherits` flag), merge and pop otherwise. -/
def onePass (now : Nat) : List String → List (String × Profile) → Bool →
    Except String (List (String × Profile) × Bool)
  | [], ps, fl => .ok (ps, fl)
  | n :: rest, ps, fl =>
    match lookupProf ps n with
    | none => onePass now rest ps fl
    | some profile =>
      match inheritList profile with
      | [] => onePass now rest ps fl
      | parentName :: _ =>
        match lookupProf ps parentName with
        | none => .error ("[error] profile " ++ n ++
            " inherits non-existing parent " ++ parentName)
        | some parent =>
          if parentName = profName profile then
            .error ("[error] profile " ++ n ++ " cannot inherit from itself")
          else if inheritList parent ≠ [] then onePass now rest ps true
          else
            match inheritFrom now profile parent with
            | .ok merged => onePass now rest (updateProf ps n (popInherit merged)) true
            | .error e => .error e

/-- Outcome of the resolution loop under a fuel bound:
a resolved registry, a fatal configuration error, or exhaustion (the
source loop, which has no bound, would still be running). -/
inductive ResolveResult where
  | ok (ps : List (String × Profile))
  | fatal (e : String)
  | outOfFuel

/-- The `while inherits:` loop, fuel-indexed. -/
def resolvePasses (now : Nat) (names : List String) :
    Nat → List (String × Profile) → ResolveResult
  | 0, _ => .outOfFuel
  | fuel + 1, ps =>
    match onePass now names ps false with
    | .error e => .fatal e
    | .ok (ps', false) => .ok ps'
    | .ok (ps', true) => resolvePasses now names fuel ps'

/-- The cyclic configuration of C1: `child.inherit = parent`,
`parent.inherit = child` (plus the implicit `default` profile). -/
def cycProfiles : List (String × Profile) :=
  [("default", ⟨[("name", .vstr "default")], [], none, none⟩),
   ("child", ⟨[("name", .vstr "child"), ("inherit", .vlist ["parent"])],
     [], none, none⟩),
   ("parent", ⟨[("name", .vstr "parent"), ("inherit", .vlist ["child"])],
     [], none, none⟩)]

def cycNames : List String := ["default", "child", "parent"]

example : mkProfile 0 "child" [("inherit", .vstr "parent")] =
    .ok ⟨[("name", .vstr "child"), ("inherit", .vlist ["parent"])],
      [], none, none⟩ := rfl

/-- On the cycle, one pass changes nothing and leaves the flag set. -/
theorem onePass_cyc :
    onePass 0 cycNames cycProfiles false = .ok (cycProfiles, true) := rfl

/-- C1: the fixed-point inheritance loop does NOT terminate on the cyclic
configuration: for every fuel bound it is still running — it never
produces a registry and never reports a fatal (cyclic-inheritance or any
other) error.  A well-founded two-profile chain, by contrast, resolves
in two passes, so exhaustion really exhibits the loop spinning. -/
theorem c1_cycle_diverges (fuel : Nat) :
    resolvePasses 0 cycNames fuel cycProfiles = .outOfFuel := by
  induction fuel with
  | zero => rfl
  | succ n ih =>
    rw [show resolvePasses 0 cycNames (n + 1) cycProfiles =
      match onePass 0 cycNames cycProfiles false with
      | .error e => .fatal e
      | .ok (ps', false) => .ok ps'
      | .ok (ps', true) => resolvePasses 0 cycNames n ps' from rfl,
      onePass_cyc]
    exact ih

/-- Sanity: an acyclic chain resolves (the cycle divergence is not an
artifact of the model). -/
example :
    resolvePasses 0 ["default", "child", "parent"] 3
      [("default", ⟨[("name", .vstr "default")], [], none, none⟩),
       ("child", ⟨[("name", .vstr "child"), ("inherit", .vlist ["parent"])],
         [], none, none⟩),
       ("parent", ⟨[("name", .vstr "parent"),
         ("description", .vstr "the parent")], [], none, none⟩)] =
    .ok
      [("default", ⟨[("name", .vstr "default")], [], none, none⟩),
       ("child", ⟨[("name", .vstr "child"), ("inherit", .vlist []),
         ("description", .vstr "the parent")],
         [.node "parent" []], none, none⟩),
       ("parent", ⟨[("name", .vstr "parent"),
         ("description", .vstr "the parent")], [], none, none⟩)] := rfl

/-! ## Task supervisor (`ServiceHandler.run_task`)

Each `try_run` call spawns the subprocess through `Profile.run` (stamping
`last_run := now` and clearing `next_run` before the spawn) and consumes
the next entry of a result script: `none` models `Popen` raising (launch
failure), `some ⟨output, ret⟩` a completed run with its captured output.
An escaped exception (launch failure, or `output[-1]` on an empty capture)
aborts `run_task` before `task.set_last_run()`, so the profile keeps the
cleared `next_run`. -/

structure RunRes where
  output : List String
  ret : Int

/-- `"remove stale locks" in line` (Python substring test). -/
def containsSub (needle : List Char) : List Char → Bool
  | [] => needle.isEmpty
  | c :: t => hasPre needle (c :: t) || containsSub needle t

def staleMsg : List Char := "remove stale locks".toList

/-- `output[-1]`, `none` when indexing raises `IndexError`. -/
def getLast : List String → Option String
  | [] => none
  | [x] => some x
  | _ :: rest => getLast rest

/-- The observable outcome of `run_task`: the profile afterwards, the
`cmd_args` of each `try_run` that was started (in order), and the
`(output, ret)` pair that reaches the classification code (`none` when an
exception escaped to the scheduler loop instead). -/
structure TaskRunOutcome where
  profile : Profile
  trace : List (List String)
  result : Option (List String × Int)

/-- `task.set_last_run()` at the end of `run_task`: stamp `last_run` and
recompute `next_run` from it; if `find_next_run` raises, `next_run` keeps
its current (cleared) value and the exception escapes. -/
def finishTask (p : Profile) (now : Nat) : Profile :=
  { p with
    last_run := some now,
    next_run :=
      (match p.findNext now with
       | .ok nr => nr
       | .error _ => p.next_run) }

/-- `ServiceHandler.run_task`: first run, stale-lock check on exit 1,
`unlock` run, and at most one re-run of the original command if the
unlock exited 0. -/
def runTask (p : Profile) (now : Nat) (script : List (Option RunRes)) :
    TaskRunOutcome :=
  match script with
  | [] | none :: _ => ⟨(Profile.run p now []).1, [[]], none⟩
  | some r1 :: rest =>
    let p1 := (Profile.run p now []).1
    if r1.ret = 1 then
      match getLast r1.output with
      | none => ⟨p1, [[]], none⟩
      | some lastLine =>
        if containsSub staleMsg lastLine.toList then
          match rest with
          | [] | none :: _ => ⟨(Profile.run p1 now ["unlock"]).1, [[], ["unlock"]], none⟩
          | some r2 :: rest2 =>
            let p2 := (Profile.run p1 now ["unlock"]).1
            if r2.ret = 0 then
              match rest2 with
              | [] | none :: _ => ⟨(Profile.run p2 now []).1, [[], ["unlock"], []], none⟩
              | some r3 :: _ =>
                ⟨finishTask (Profile.run p2 now []).1 now,
                 [[], ["unlock"], []], some (r3.output, r3.ret)⟩
            else ⟨finishTask p2 now, [[], ["unlock"]], some (r1.output, r1.ret)⟩
        else ⟨finishTask p1 now, [[]], some (r1.output, r1.ret)⟩
    else ⟨finishTask p1 now, [[]], some (r1.output, r1.ret)⟩

/-- A profile with a daily schedule, to exhibit what rescheduling would
have produced. -/
def dailyProf : Profile :=
  ⟨[("name", .vstr "t"), ("schedule", .vstr "daily 08:00")], [], none, none⟩

/-- C3: a launch failure (`Popen` raising inside `try_run`) leaves the
task with `next_run = None`: `Profile.run` stamps `last_run := now` and
clears `next_run` before spawning, the exception escapes `run_task`
before `task.set_last_run()`, and nothing recomputes `next_run` from the
attempted `lastRun` — the task stays unscheduled (until a reload), even
though `find_next_run` would have produced a next occurrence. -/
theorem c3_launch_failure_leaves_disabled (p : Profile) (now : Nat) :
    (runTask p now [none]).profile.next_run = none ∧
    (runTask p now [none]).profile.last_run = some now ∧
    (runTask p now [none]).result = none ∧
    (runTask dailyProf (mkDT 2024 1 1 10 0 0) [none]).profile.next_run = none ∧
    dailyProf.findNext (mkDT 2024 1 1 10 0 0) =
      .ok (some (mkDT 2024 1 2 8 0 0)) :=
  ⟨rfl, rfl, rfl, rfl, rfl⟩

/-- C4: when a run exits 1 and its last captured line contains the
stale-lock message, `run_task` starts an `unlock` run, re-runs the
original command exactly when the unlock exited 0, and never retries
again: the full trace is `[original, unlock]` plus at most one more
original run, and the classified result is the re-run's when it happened
and the first run's otherwise. -/
theorem c4_stale_lock_retry (p : Profile) (now : Nat) (r1 r2 r3 : RunRes)
    (h1 : r1.ret = 1) (l : String)
    (hl : getLast r1.output = some l)
    (hc : containsSub staleMsg l.toList = true) :
    (runTask p now [some r1, some r2, some r3]).trace =
      [[], ["unlock"]] ++ (if r2.ret = 0 then [[]] else []) ∧
    (runTask p now [some r1, some r2, some r3]).result =
      some (if r2.ret = 0 then (r3.output, r3.ret) else (r1.output, r1.ret)) := by
  unfold runTask
  rw [h1]
  simp only [if_pos rfl, hl, hc, if_true]
  by_cases h2 : r2.ret = 0
  · simp [h1, h2]
  · simp [h1, h2]

/-- C4 witness: a stale-lock failure followed by a successful unlock and
a clean re-run. -/
theorem c4_witness :
    (runTask pEmpty 0
      [some ⟨["repository is already locked, remove stale locks with unlock"], 1⟩,
       some ⟨[], 0⟩, some ⟨["snapshot saved"], 0⟩]).trace =
      [[], ["unlock"]] ++ (if (0 : Int) = 0 then [[]] else []) ∧
    (runTask pEmpty 0
      [some ⟨["repository is already locked, remove stale locks with unlock"], 1⟩,
       some ⟨[], 0⟩, some ⟨["snapshot saved"], 0⟩]).result =
      some (if (0 : Int) = 0 then (["snapshot saved"], (0 : Int))
            else (["repository is already locked, remove stale locks with unlock"], 1)) :=
  c4_stale_lock_retry pEmpty 0
    ⟨["repository is already locked, remove stale locks with unlock"], 1⟩
    ⟨[], 0⟩ ⟨["snapshot saved"], 0⟩ rfl
    "repository is already locked, remove stale locks with unlock" rfl rfl

/-! ## Load-time catch-up policy (`BaseHandler.load_config`) -/

/-- The per-task state restoration in `load_config`:
`task.set_last_run(restored)` computes the catch-up `next_run` from the
restored `last_run`; then, if that `next_run` is less than one day in the
past and the `next_run` computed from the current time falls within the
next 12 hours, the fresh one replaces the catch-up one.  Any exception in
the block (a `None` comparison or a `find_next_run` error) is swallowed
by the surrounding `try`, keeping the state reached so far. -/
def setupTask (p : Profile) (lr : Nat) (now : Nat) : Profile :=
  let p1 : Profile := { p with last_run := some lr }
  match p.findNext lr with
  | .error _ => p1
  | .ok nr =>
    let p2 : Profile := { p1 with next_run := nr }
    match nr with
    | none => p2
    | some c =>
      if now - 86400 < c then
        match p2.findNext now with
        | .error _ => p2
        | .ok none => p2
        | .ok (some fresh) =>
          if fresh < now + 43200 then { p2 with next_run := some fresh }
          else p2
      else p2

/-- `find_next_run` only reads the property dict, so stamping the run
timestamps does not change its result. -/
theorem findNext_update (p : Profile) (a b : Option Nat) (t : Nat) :
    Profile.findNext { p with last_run := a, next_run := b } t =
      p.findNext t := rfl

def c8prof : Profile :=
  ⟨[("name", .vstr "t"), ("schedule", .vstr "daily 10:00")], [], none, none⟩

/-- C8 counterexample to the claim as stated, in both directions.
With schedule `daily 10:00` and now = 2024-01-02 09:00:
a `lastRun` of 2024-01-01 09:30 is less than 24 hours old — the claim
calls it authoritative — yet its catch-up `nextRun` (2024-01-01 10:00) is
discarded for the fresh 2024-01-02 10:00; and a `lastRun` of
2023-12-23 09:30 is ten days old — the claim says the task is treated as
never having run — yet its stale catch-up `nextRun` (2023-12-23 10:00,
long past, firing immediately) is kept. -/
theorem c8_counterexample :
    ((setupTask c8prof (mkDT 2024 1 1 9 30 0) (mkDT 2024 1 2 9 0 0)).next_run =
       some (mkDT 2024 1 2 10 0 0) ∧
     mkDT 2024 1 2 9 0 0 < mkDT 2024 1 1 9 30 0 + 86400 ∧
     c8prof.findNext (mkDT 2024 1 1 9 30 0) =
       .ok (some (mkDT 2024 1 1 10 0 0)) ∧
     mkDT 2024 1 2 10 0 0 ≠ mkDT 2024 1 1 10 0 0) ∧
    ((setupTask c8prof (mkDT 2023 12 23 9 30 0) (mkDT 2024 1 2 9 0 0)).next_run =
       some (mkDT 2023 12 23 10 0 0) ∧
     mkDT 2023 12 23 9 30 0 + 86400 < mkDT 2024 1 2 9 0 0) :=
  ⟨⟨rfl, by decide, rfl, by decide⟩, ⟨rfl, by decide⟩⟩

/-- C8 (amended): at load time the restored `lastRun` is always stamped
and the catch-up `nextRun` is computed from it; the freshly computed
`nextRun` replaces the catch-up one exactly when the catch-up `nextRun`
is less than 24 hours in the past *and* the fresh one is less than
12 hours in the future; otherwise the catch-up `nextRun` is kept — there
is no check on the age of `lastRun` itself and no "treat as never run"
path. -/
theorem c8_catchup (p : Profile) (lr now c fresh : Nat)
    (hc : p.findNext lr = .ok (some c))
    (hf : p.findNext now = .ok (some fresh))
    (_hnow : 86400 ≤ now) :
    (setupTask p lr now).last_run = some lr ∧
    (setupTask p lr now).next_run =
      some (if now - 86400 < c ∧ fresh < now + 43200 then fresh else c) := by
  unfold setupTask
  rw [hc]
  dsimp only
  by_cases h1 : now - 86400 < c
  · rw [if_pos h1, findNext_update, hf]
    dsimp only
    by_cases h2 : fresh < now + 43200
    · rw [if_pos h2, if_pos ⟨h1, h2⟩]
      exact ⟨rfl, rfl⟩
    · rw [if_neg h2, if_neg (fun hand => h2 hand.2)]
      exact ⟨rfl, rfl⟩
  · rw [if_neg h1, if_neg (fun hand => h1 hand.1)]
    exact ⟨rfl, rfl⟩

/-- C8 witness: the amended policy evaluated on the recent-`lastRun`
scenario. -/
theorem c8_witness :
    (setupTask c8prof (mkDT 2024 1 1 9 30 0) (mkDT 2024 1 2 9 0 0)).last_run =
      some (mkDT 2024 1 1 9 30 0) ∧
    (setupTask c8prof (mkDT 2024 1 1 9 30 0) (mkDT 2024 1 2 9 0 0)).next_run =
      some (if mkDT 2024 1 2 9 0 0 - 86400 < mkDT 2024 1 1 10 0 0 ∧
          mkDT 2024 1 2 10 0 0 < mkDT 2024 1 2 9 0 0 + 43200
        then mkDT 2024 1 2 10 0 0 else mkDT 2024 1 1 10 0 0) :=
  c8_catchup c8prof (mkDT 2024 1 1 9 30 0) (mkDT 2024 1 2 9 0 0)
    (mkDT 2024 1 1 10 0 0) (mkDT 2024 1 2 10 0 0) rfl rfl (by decide)

end Prestic
